import Mathlib

/-!
Shallow embedding of `scripts/generate-sounds.py` (Scale Climber sound
generator) and proofs about its waveform synthesis and export pipeline.

Waveforms produced by the synthesis primitives are modelled as lists of
exact numbers: `List ℝ` for the sine-based generators (`generate_tone`,
`generate_multi_tone`, `generate_sweep`, which use `np.sin`) and `List ℚ`
for the purely arithmetic envelope and PCM-conversion stages.  Python
floats are modelled by exact arithmetic; `int(...)` is truncation toward
zero, and the NumPy `np.int16` cast is truncation followed by wrapping
modulo 2^16 (two's complement), as NumPy performs a C-style cast.
-/

/-- `SAMPLE_RATE = 48000` from the script. -/
def SAMPLE_RATE : ℕ := 48000

/-- `samples = int(SAMPLE_RATE * duration)`: Python `int()` truncates toward
zero; for positive durations this is the floor. -/
def numSamples (duration : ℚ) : ℕ := (⌊(SAMPLE_RATE : ℚ) * duration⌋).toNat

/-- The time grid `t = np.linspace(0, duration, samples, False)`:
with `endpoint=False` the step is `duration / samples`, so
`t[i] = duration * i / samples`. -/
def toneT (duration : ℚ) (n : ℕ) (i : ℕ) : ℚ := duration * i / n

/-- `generate_tone(frequency, duration, volume)`:
`wave = volume * np.sin(2 * np.pi * frequency * t)`. -/
noncomputable def generate_tone (frequency duration volume : ℚ) : List ℝ :=
  (List.range (numSamples duration)).map
    (fun i => (volume : ℝ) *
      Real.sin (2 * Real.pi * ((frequency * toneT duration (numSamples duration) i : ℚ) : ℝ)))

/-- `generate_multi_tone(frequencies, duration, volume)`: starts from
`np.zeros(samples)` and adds `(volume / len(frequencies)) * np.sin(2πf·t)`
for each frequency, i.e. sample `i` is the sum over the frequency list. -/
noncomputable def generate_multi_tone (frequencies : List ℚ) (duration volume : ℚ) : List ℝ :=
  (List.range (numSamples duration)).map
    (fun i =>
      (frequencies.map
        (fun f => ((volume / frequencies.length : ℚ) : ℝ) *
          Real.sin (2 * Real.pi * ((f * toneT duration (numSamples duration) i : ℚ) : ℝ)))).sum)

/-- `freq = np.linspace(start_freq, end_freq, samples)` (endpoint included):
for `n ≥ 2`, `freq[i] = start + (end - start) * i / (n - 1)`; for `n = 1` the
single element is `start`. -/
def sweepFreq (startFreq endFreq : ℚ) (n : ℕ) (i : ℕ) : ℚ :=
  if n ≤ 1 then startFreq else startFreq + (endFreq - startFreq) * i / ((n - 1 : ℕ) : ℚ)

/-- `phase = 2 * np.pi * np.cumsum(freq) / SAMPLE_RATE` without the `2π`
factor: `cumsum(freq)[i] = Σ_{j=0}^{i} freq[j]`, so the phase of sample `i`
in cycles is `(Σ_{j≤i} freq[j]) / SAMPLE_RATE`.  Note the sum includes
`j = i`, so the phase of sample 0 is already `freq[0] / SAMPLE_RATE`. -/
def sweepPhase (startFreq endFreq : ℚ) (n : ℕ) (i : ℕ) : ℚ :=
  ((Finset.range (i + 1)).sum (fun j => sweepFreq startFreq endFreq n j)) / (SAMPLE_RATE : ℚ)

/-- `generate_sweep(start_freq, end_freq, duration, volume)`:
`wave = volume * np.sin(phase)`. -/
noncomputable def generate_sweep (startFreq endFreq duration volume : ℚ) : List ℝ :=
  (List.range (numSamples duration)).map
    (fun i => (volume : ℝ) *
      Real.sin (2 * Real.pi *
        ((sweepPhase startFreq endFreq (numSamples duration) i : ℚ) : ℝ)))

/-- The attack ramp `np.linspace(0, 1, a)` at index `i < a`:
`[0]` when `a = 1`, else `i / (a - 1)`. -/
def attackRamp (a : ℕ) (i : ℕ) : ℚ :=
  if a ≤ 1 then 0 else (i : ℚ) / ((a - 1 : ℕ) : ℚ)

/-- The release ramp `np.linspace(1, 0, r)` at index `j < r`:
`[1]` when `r = 1`, else `1 - j / (r - 1)`. -/
def releaseRamp (r : ℕ) (j : ℕ) : ℚ :=
  if r ≤ 1 then 1 else 1 - (j : ℚ) / ((r - 1 : ℕ) : ℚ)

/-- The envelope array built by `apply_envelope`: start from `np.ones`,
assign `envelope[:attack_samples] = np.linspace(0, 1, attack_samples)` when
`attack_samples > 0`, then assign
`envelope[-release_samples:] = np.linspace(1, 0, release_samples)` when
`release_samples > 0`.  The release assignment happens second, so on
indices covered by both windows the release value replaces the attack
value.  Faithful for `a ≤ len` and `r ≤ len` (outside that NumPy raises a
broadcast error on the slice assignment). -/
def envFactor (len a r : ℕ) (i : ℕ) : ℚ :=
  if 0 < r ∧ len - r ≤ i then releaseRamp r (i - (len - r))
  else if 0 < a ∧ i < a then attackRamp a i
  else 1

/-- `apply_envelope` after the two window sizes have been computed:
`return wave * envelope` (elementwise product). -/
def applyEnvelopeSamples (wave : List ℚ) (a r : ℕ) : List ℚ :=
  (List.range wave.length).map (fun i => wave.getD i 0 * envFactor wave.length a r i)

/-- `apply_envelope(wave, attack, release)` with
`attack_samples = int(SAMPLE_RATE * attack)` and
`release_samples = int(SAMPLE_RATE * release)`. -/
def apply_envelope (wave : List ℚ) (attack release : ℚ) : List ℚ :=
  applyEnvelopeSamples wave (⌊(SAMPLE_RATE : ℚ) * attack⌋).toNat
    (⌊(SAMPLE_RATE : ℚ) * release⌋).toNat

/-- Truncation toward zero, the conversion Python/NumPy applies when casting
a float to an integer type. -/
def truncQ (q : ℚ) : ℤ := if 0 ≤ q then ⌊q⌋ else ⌈q⌉

/-- Reduction modulo 2^16 into `[-32768, 32767]`: the effect of the
`np.int16` cast on an integer value (two's complement wrap-around). -/
def wrap16 (z : ℤ) : ℤ := Int.emod (z + 32768) 65536 - 32768

/-- One sample of `np.int16(wave * 32767)`: scale by 32767, truncate toward
zero, wrap into 16 bits. -/
def exportSample (x : ℚ) : ℤ := wrap16 (truncQ (x * 32767))

/-- What the spec's words describe for one sample: scale, truncate, and
saturate (clip) to `[-32767, 32767]`.  Stated for comparison with
`exportSample`, which is what the code does. -/
def clipSample (x : ℚ) : ℤ := max (-32767) (min 32767 (truncQ (x * 32767)))

/-- The environment a run of the script sees: whether the `ffmpeg`
executable exists (`subprocess.Popen` raises `FileNotFoundError` when it
does not), and the exit status the encoder process returns for each output
filename when it does run. -/
structure EncoderEnv where
  present : Bool
  exitCode : String → Int

/-- The operator-visible messages `save_as_opus` can print. -/
inductive ExportEvent where
  | warning (filename : String)
  | generated (filename : String)
  | missingEncoder
deriving DecidableEq

/-- What one call to `save_as_opus` produces: its Python return value, the
messages it printed, and whether the encoder wrote the output file.
`fileWritten` is modelled from the spec's encoder contract (§6): the
external process "produces a compressed audio file at a specified path …
signals failure via nonzero process exit status", so the file is written
exactly when the process ran and exited 0. -/
structure ExportOutcome where
  result : Bool
  events : List ExportEvent
  fileWritten : Bool
deriving DecidableEq

/-- `save_as_opus(wave, filename)` control flow: if `Popen` raises
`FileNotFoundError`, print the missing-encoder error and `return False`;
otherwise run the process, print a warning naming the file on nonzero exit
or a success line on zero exit, and fall through to `return True` in both
cases. -/
def save_as_opus (env : EncoderEnv) (filename : String) : ExportOutcome :=
  if env.present then
    if env.exitCode filename ≠ 0 then
      { result := true, events := [ExportEvent.warning filename], fileWritten := false }
    else
      { result := true, events := [ExportEvent.generated filename], fileWritten := true }
  else
    { result := false, events := [ExportEvent.missingEncoder], fileWritten := false }

/-- The eight output filenames of `main`, in the order they are exported. -/
def cueFilenames : List String :=
  ["perfect.opus", "great.opus", "ok.opus", "miss.opus",
   "combo.opus", "victory.opus", "failure.opus", "click.opus"]

/-- The export phase of `main`: eight straight-line `save_as_opus` calls,
one per cue, with the return value of each call discarded — no call's
outcome influences whether the next call happens. -/
def mainExport (env : EncoderEnv) : List (String × ExportOutcome) :=
  cueFilenames.map (fun f => (f, save_as_opus env f))

/-- An environment in which the `ffmpeg` executable is missing. -/
def envNoFfmpeg : EncoderEnv := ⟨false, fun _ => 0⟩

/-- An environment in which `ffmpeg` exists but exits with status 1 for
`miss.opus` and 0 for every other file. -/
def envMissFails : EncoderEnv := ⟨true, fun g => if g = "miss.opus" then 1 else 0⟩

/-- C10: `save_as_opus` returns `True` whenever the encoder executable is
present — both on zero and on nonzero exit status, since after the
returncode check the function falls through to `return True` — and returns
`False` exactly when `Popen` raises `FileNotFoundError`.  Hence a caller
cannot distinguish a per-file encoding failure from a success by the
returned value. -/
theorem save_as_opus_result_eq_present (env : EncoderEnv) (f : String) :
    (save_as_opus env f).result = env.present := by
  rcases env with ⟨p, e⟩
  cases p with
  | false => simp [save_as_opus]
  | true =>
    by_cases h : e f = 0 <;> simp [save_as_opus, h]

/-- C6: when the encoder is present but exits nonzero for a file,
`save_as_opus` prints exactly a warning naming that file, the output file
is not written, and `main` still attempts the export of every cue in the
batch (its call sequence never branches on an outcome). -/
theorem nonzero_exit_warns_and_run_continues (env : EncoderEnv) (f : String)
    (hp : env.present = true) (hx : env.exitCode f ≠ 0) :
    (save_as_opus env f).events = [ExportEvent.warning f] ∧
    (save_as_opus env f).fileWritten = false ∧
    (mainExport env).map Prod.fst = cueFilenames := by
  refine ⟨?_, ?_, ?_⟩
  · simp [save_as_opus, hp, hx]
  · simp [save_as_opus, hp, hx]
  · simp [mainExport, List.map_map, Function.comp_def]

/-- Witness for C6 at a concrete environment: `ffmpeg` present, exit
status 1 for `miss.opus` and 0 otherwise. -/
theorem nonzero_exit_warns_and_run_continues_witness :
    (save_as_opus envMissFails "miss.opus").events = [ExportEvent.warning "miss.opus"] ∧
    (save_as_opus envMissFails "miss.opus").fileWritten = false ∧
    (mainExport envMissFails).map Prod.fst = cueFilenames :=
  nonzero_exit_warns_and_run_continues envMissFails "miss.opus" rfl
    (by simp [envMissFails])

/-- C2 counterexample: with the encoder executable absent, the run does not
stop after the first failed export — all eight cues are still attempted
(the eighth, `click.opus`, included), each reporting the missing-encoder
error, because `main` discards the `False` that `save_as_opus` returns. -/
theorem missing_encoder_counterexample :
    envNoFfmpeg.present = false ∧
    (mainExport envNoFfmpeg).length = 8 ∧
    (mainExport envNoFfmpeg).getD 7 ("", ⟨true, [], true⟩) =
      ("click.opus",
        { result := false, events := [ExportEvent.missingEncoder], fileWritten := false }) := by
  refine ⟨rfl, rfl, ?_⟩
  rfl

/-- C2 (amended): with the encoder executable absent, every export attempt
reports the missing-encoder error (an event distinct from the per-file
warning), writes no output file, and returns `False`; but `main` ignores
the returned value, so the run still attempts the export of every
remaining cue instead of stopping. -/
theorem missing_encoder_reported_but_run_continues (env : EncoderEnv)
    (hp : env.present = false) :
    (∀ f, (save_as_opus env f).events = [ExportEvent.missingEncoder] ∧
      (save_as_opus env f).fileWritten = false ∧
      (save_as_opus env f).result = false) ∧
    (mainExport env).map Prod.fst = cueFilenames := by
  constructor
  · intro f
    refine ⟨?_, ?_, ?_⟩ <;> simp [save_as_opus, hp]
  · simp [mainExport, List.map_map, Function.comp_def]

/-- Witness for the amended C2 at the concrete no-`ffmpeg` environment. -/
theorem missing_encoder_reported_but_run_continues_witness :
    envNoFfmpeg.present = false ∧
    (save_as_opus envNoFfmpeg "perfect.opus").events = [ExportEvent.missingEncoder] ∧
    (mainExport envNoFfmpeg).map Prod.fst = cueFilenames :=
  ⟨rfl, ((missing_encoder_reported_but_run_continues envNoFfmpeg rfl).1 "perfect.opus").1,
    (missing_encoder_reported_but_run_continues envNoFfmpeg rfl).2⟩

/-- Length is preserved by the envelope (elementwise product). -/
theorem applyEnvelopeSamples_length (w : List ℚ) (a r : ℕ) :
    (applyEnvelopeSamples w a r).length = w.length := by
  simp [applyEnvelopeSamples]

/-- Sample `i` of the enveloped waveform is the original sample times the
envelope factor. -/
theorem applyEnvelopeSamples_getD (w : List ℚ) (a r i : ℕ) (hi : i < w.length) :
    (applyEnvelopeSamples w a r).getD i 0 = w.getD i 0 * envFactor w.length a r i := by
  unfold applyEnvelopeSamples
  rw [List.getD_eq_getElem _ _ (by simpa using hi)]
  simp

/-- The attack ramp is nonnegative. -/
theorem attackRamp_nonneg (a i : ℕ) : 0 ≤ attackRamp a i := by
  unfold attackRamp
  split
  · exact le_refl 0
  · positivity

/-- Inside the attack window the attack ramp is at most 1. -/
theorem attackRamp_le_one (a i : ℕ) (h : i < a) : attackRamp a i ≤ 1 := by
  unfold attackRamp
  split
  · norm_num
  · next h2 =>
    rw [div_le_one (by exact_mod_cast Nat.sub_pos_of_lt (by omega))]
    exact_mod_cast Nat.le_sub_one_of_lt h

/-- Inside the release window the release ramp is nonnegative. -/
theorem releaseRamp_nonneg (r j : ℕ) (h : j < r) : 0 ≤ releaseRamp r j := by
  unfold releaseRamp
  split
  · norm_num
  · next h2 =>
    rw [sub_nonneg, div_le_one (by exact_mod_cast Nat.sub_pos_of_lt (by omega))]
    exact_mod_cast Nat.le_sub_one_of_lt h

/-- The release ramp is at most 1. -/
theorem releaseRamp_le_one (r j : ℕ) : releaseRamp r j ≤ 1 := by
  unfold releaseRamp
  split
  · exact le_refl 1
  · have : (0:ℚ) ≤ (j : ℚ) / ((r - 1 : ℕ) : ℚ) := by positivity
    linarith

/-- The envelope factor is nonnegative at every in-range index. -/
theorem envFactor_nonneg (len a r i : ℕ) (hi : i < len) (hr : r ≤ len) :
    0 ≤ envFactor len a r i := by
  unfold envFactor
  split
  · next h => exact releaseRamp_nonneg r _ (by omega)
  · split
    · exact attackRamp_nonneg a i
    · norm_num

/-- The envelope factor is at most 1 at every index. -/
theorem envFactor_le_one (len a r i : ℕ) : envFactor len a r i ≤ 1 := by
  unfold envFactor
  split
  · exact releaseRamp_le_one r _
  · split
    · next h => exact attackRamp_le_one a i h.2
    · norm_num

/-- C9: `apply_envelope(w, 0, 0)` is the identity: both window sizes are
`int(48000 * 0) = 0`, both ramp assignments are skipped, and multiplying by
the all-ones envelope returns every sample unchanged. -/
theorem apply_envelope_zero_zero_id (w : List ℚ) : apply_envelope w 0 0 = w := by
  have h0 : ((⌊(SAMPLE_RATE : ℚ) * 0⌋).toNat) = 0 := by norm_num
  unfold apply_envelope
  rw [h0]
  apply List.ext_getElem
  · simp [applyEnvelopeSamples]
  · intro i h1 h2
    simp only [applyEnvelopeSamples, List.getElem_map, List.getElem_range]
    rw [List.getD_eq_getElem w 0 h2]
    simp [envFactor]

/-- C8: for a waveform of length at least `attack_samples + release_samples`,
the envelope leaves the middle region `[attack_samples, length - release_samples)`
unchanged, and the first and last samples' magnitudes do not increase. -/
theorem envelope_frame_and_edges (w : List ℚ) (a r : ℕ)
    (h : a + r ≤ w.length) :
    (∀ i, a ≤ i → i < w.length - r →
      (applyEnvelopeSamples w a r).getD i 0 = w.getD i 0) ∧
    |(applyEnvelopeSamples w a r).getD 0 0| ≤ |w.getD 0 0| ∧
    |(applyEnvelopeSamples w a r).getD (w.length - 1) 0| ≤
      |w.getD (w.length - 1) 0| := by
  have habs : ∀ i, i < w.length →
      |(applyEnvelopeSamples w a r).getD i 0| ≤ |w.getD i 0| := by
    intro i hi
    rw [applyEnvelopeSamples_getD w a r i hi, abs_mul,
      abs_of_nonneg (envFactor_nonneg w.length a r i hi (by omega))]
    exact mul_le_of_le_one_right (abs_nonneg _) (envFactor_le_one w.length a r i)
  refine ⟨?_, ?_, ?_⟩
  · intro i hai hir
    have hi : i < w.length := by omega
    rw [applyEnvelopeSamples_getD w a r i hi]
    have he : envFactor w.length a r i = 1 := by
      unfold envFactor
      rw [if_neg (by omega), if_neg (by omega)]
    rw [he, mul_one]
  · rcases Nat.eq_zero_or_pos w.length with h0 | h0
    · have hl : (applyEnvelopeSamples w a r).length = 0 := by
        rw [applyEnvelopeSamples_length]; omega
      rw [List.getD_eq_default _ _ (by omega), List.getD_eq_default _ _ (by omega)]
    · exact habs 0 h0
  · rcases Nat.eq_zero_or_pos w.length with h0 | h0
    · have hl : (applyEnvelopeSamples w a r).length = 0 := by
        rw [applyEnvelopeSamples_length]; omega
      rw [List.getD_eq_default _ _ (by omega), List.getD_eq_default _ _ (by omega)]
    · exact habs (w.length - 1) (by omega)

/-- Witness for C8 on `w = [1, 2, 3, 4]`, one attack and one release sample:
the middle is untouched and the edge magnitudes do not grow. -/
theorem envelope_frame_and_edges_witness :
    (applyEnvelopeSamples [1, 2, 3, 4] 1 1).getD 1 0 = ([1, 2, 3, 4] : List ℚ).getD 1 0 ∧
    |(applyEnvelopeSamples [1, 2, 3, 4] 1 1).getD 0 0| ≤ |([1, 2, 3, 4] : List ℚ).getD 0 0| ∧
    |(applyEnvelopeSamples [1, 2, 3, 4] 1 1).getD (([1, 2, 3, 4] : List ℚ).length - 1) 0| ≤
      |([1, 2, 3, 4] : List ℚ).getD (([1, 2, 3, 4] : List ℚ).length - 1) 0| :=
  ⟨(envelope_frame_and_edges [1, 2, 3, 4] 1 1 (by norm_num)).1 1 (by norm_num) (by norm_num),
    (envelope_frame_and_edges [1, 2, 3, 4] 1 1 (by norm_num)).2.1,
    (envelope_frame_and_edges [1, 2, 3, 4] 1 1 (by norm_num)).2.2⟩

/-- C3 counterexample: on `w = [1, 1, 1, 1]` with 3 attack and 3 release
samples (each window within the length, their sum exceeding it), index 1
lies in both windows, yet the result there is not the original sample times
both ramp factors: the attack factor `1/2` has been overwritten, not
multiplied, by the release factor `1`. -/
theorem envelope_overlap_counterexample :
    3 ≤ ([1, 1, 1, 1] : List ℚ).length ∧ ([1, 1, 1, 1] : List ℚ).length < 3 + 3 ∧
    1 < 3 ∧ ([1, 1, 1, 1] : List ℚ).length - 3 ≤ 1 ∧
    (applyEnvelopeSamples [1, 1, 1, 1] 3 3).getD 1 0 ≠
      ([1, 1, 1, 1] : List ℚ).getD 1 0 *
        (attackRamp 3 1 * releaseRamp 3 (1 - (([1, 1, 1, 1] : List ℚ).length - 3))) := by
  have h1 : (applyEnvelopeSamples [1, 1, 1, 1] 3 3).getD 1 0
      = ([1, 1, 1, 1] : List ℚ).getD 1 0 * envFactor ([1, 1, 1, 1] : List ℚ).length 3 3 1 :=
    applyEnvelopeSamples_getD _ 3 3 1 (by norm_num)
  refine ⟨by norm_num, by norm_num, by norm_num, by norm_num, ?_⟩
  rw [h1]
  norm_num [envFactor, attackRamp, releaseRamp]

/-- C3 (amended): when the attack and release windows overlap (each window
at most the waveform length, their sum exceeding it), the envelope applies
the attack ramp first and then the release ramp, but the release slice
assignment overwrites — rather than multiplies — the envelope on every
index of the release window, so at every overlapping index the resulting
sample is the original sample times the release ramp factor alone. -/
theorem envelope_overlap_release_overwrites (w : List ℚ) (a r : ℕ)
    (ha : a ≤ w.length) (hr : r ≤ w.length) (hov : w.length < a + r)
    (i : ℕ) (hri : w.length - r ≤ i) (hi : i < w.length) :
    (applyEnvelopeSamples w a r).getD i 0
      = w.getD i 0 * releaseRamp r (i - (w.length - r)) := by
  rw [applyEnvelopeSamples_getD w a r i hi]
  have hr0 : 0 < r := by omega
  unfold envFactor
  rw [if_pos ⟨hr0, hri⟩]

/-- Witness for the amended C3 at `w = [1, 1, 1, 1]`, 3 attack and 3 release
samples, overlapping index 1. -/
theorem envelope_overlap_release_overwrites_witness :
    (applyEnvelopeSamples [1, 1, 1, 1] 3 3).getD 1 0
      = ([1, 1, 1, 1] : List ℚ).getD 1 0 *
          releaseRamp 3 (1 - (([1, 1, 1, 1] : List ℚ).length - 3)) :=
  envelope_overlap_release_overwrites [1, 1, 1, 1] 3 3 (by norm_num) (by norm_num)
    (by norm_num) 1 (by norm_num) (by norm_num)

/-- C1 counterexample: for the sample `x = 3/2`, the scaled value
`trunc(3/2 * 32767) = 49150` lies above the 16-bit range, and the
`np.int16` cast emits the wrapped value `-16386`, not the nearest range
bound `32767` that saturation would give. -/
theorem export_wraps_not_clips_counterexample :
    32767 < truncQ ((3/2 : ℚ) * 32767) ∧
    exportSample (3/2) = -16386 ∧
    exportSample (3/2) ≠ 32767 ∧
    clipSample (3/2) = 32767 := by
  have ht : truncQ ((3/2 : ℚ) * 32767) = 49150 := by
    rw [truncQ, if_pos (by norm_num)]; norm_num
  have he : exportSample (3/2) = -16386 := by
    rw [exportSample, ht]; decide
  have hc : clipSample (3/2) = 32767 := by
    rw [clipSample, ht]; decide
  exact ⟨by rw [ht]; norm_num, he, by rw [he]; decide, hc⟩

/-- C1 (amended): the exporter scales each sample by 32767, truncates toward
zero, and reduces the result modulo 2^16 into `[-32768, 32767]` — i.e. the
emitted PCM value wraps around rather than saturating; it equals the
truncated scaled value exactly when that value already fits in the signed
16-bit range. -/
theorem export_wraps_mod_2_pow_16 (x : ℚ) :
    (-32768 ≤ exportSample x ∧ exportSample x < 32768) ∧
    (65536 : ℤ) ∣ (exportSample x - truncQ (x * 32767)) ∧
    (-32768 ≤ truncQ (x * 32767) → truncQ (x * 32767) ≤ 32767 →
      exportSample x = truncQ (x * 32767)) := by
  set t : ℤ := truncQ (x * 32767) with hts
  have hmod : exportSample x = (t + 32768) % 65536 - 32768 := rfl
  refine ⟨⟨?_, ?_⟩, ?_, ?_⟩
  · rw [hmod]
    have := Int.emod_nonneg (t + 32768) (by norm_num : (65536 : ℤ) ≠ 0)
    omega
  · rw [hmod]
    have := Int.emod_lt_of_pos (t + 32768) (by norm_num : (0 : ℤ) < 65536)
    omega
  · have hdef := Int.ediv_add_emod (t + 32768) 65536
    refine ⟨-((t + 32768) / 65536), ?_⟩
    rw [hmod]
    linarith
  · intro h1 h2
    rw [hmod, Int.emod_eq_of_lt (by omega) (by omega)]
    omega

/-- Witness for the amended C1 at `x = 1/2`: the scaled value 16383 is in
range, so the emitted value is 16383 itself, in range and congruent. -/
theorem export_wraps_mod_2_pow_16_witness :
    ((-32768 ≤ exportSample (1/2) ∧ exportSample (1/2) < 32768) ∧
      (65536 : ℤ) ∣ (exportSample (1/2) - truncQ ((1/2 : ℚ) * 32767)) ∧
      exportSample (1/2) = truncQ ((1/2 : ℚ) * 32767)) ∧
    -32768 ≤ truncQ ((1/2 : ℚ) * 32767) ∧ truncQ ((1/2 : ℚ) * 32767) ≤ 32767 := by
  have ht : truncQ ((1/2 : ℚ) * 32767) = 16383 := by
    rw [truncQ, if_pos (by norm_num)]; norm_num
  have h := export_wraps_mod_2_pow_16 (1/2)
  exact ⟨⟨h.1, h.2.1, h.2.2 (by rw [ht]; decide) (by rw [ht]; decide)⟩,
    by rw [ht]; decide, by rw [ht]; decide⟩

/-- C7: a single-element chord reduces exactly to a tone: with one
frequency the loop adds `(volume / 1) * sin(2πf·t)` to the zero buffer
once, which is sample for sample the tone. -/
theorem multi_tone_singleton_eq_tone (f d v : ℚ) :
    generate_multi_tone [f] d v = generate_tone f d v := by
  unfold generate_multi_tone generate_tone
  apply List.map_congr_left
  intro i _
  simp only [List.map_cons, List.map_nil, List.sum_cons, List.sum_nil, add_zero,
    List.length_cons, List.length_nil, Nat.cast_one]
  push_cast
  ring

/-- C5 counterexample: at `duration = 1/32000` s the scaled duration is
`48000/32000 = 1.5` samples; `int()` truncates to 1 sample while rounding
gives 2, so the length is not `round(sample_rate * duration)`. -/
theorem tone_length_round_counterexample :
    (0 : ℚ) < 1/32000 ∧
    (generate_tone 440 (1/32000) (3/10)).length = 1 ∧
    round ((SAMPLE_RATE : ℚ) * (1/32000)) = 2 ∧
    ((generate_tone 440 (1/32000) (3/10)).length : ℤ) ≠
      round ((SAMPLE_RATE : ℚ) * (1/32000)) := by
  have hn : numSamples (1/32000) = 1 := by
    unfold numSamples
    norm_num [SAMPLE_RATE]
  have hl : (generate_tone 440 (1/32000) (3/10)).length = 1 := by
    simp only [generate_tone, List.length_map, List.length_range]
    exact hn
  have hr : round ((SAMPLE_RATE : ℚ) * (1/32000)) = 2 := by
    norm_num [SAMPLE_RATE, round_eq]
  exact ⟨by norm_num, hl, hr, by rw [hl, hr]; decide⟩

/-- C5 (amended): for positive duration the tone's length is
`⌊sample_rate * duration⌋` (Python `int()` truncation, not rounding), and
every sample's magnitude is at most `|volume|`. -/
theorem tone_length_and_amplitude (f d v : ℚ) (hd : 0 < d) :
    (generate_tone f d v).length = (⌊(SAMPLE_RATE : ℚ) * d⌋).toNat ∧
    ∀ x ∈ generate_tone f d v, |x| ≤ |(v : ℝ)| := by
  constructor
  · simp [generate_tone, numSamples]
  · intro x hx
    simp only [generate_tone, List.mem_map, List.mem_range] at hx
    obtain ⟨i, hi, rfl⟩ := hx
    rw [abs_mul]
    exact mul_le_of_le_one_right (abs_nonneg _) (Real.abs_sin_le_one _)

/-- Witness for the amended C5 at the `great.opus` parameters
`(600 Hz, 0.3 s, volume 0.3)`: 14400 samples. -/
theorem tone_length_and_amplitude_witness :
    (0 : ℚ) < 3/10 ∧ (generate_tone 600 (3/10) (3/10)).length = 14400 := by
  refine ⟨by norm_num, ?_⟩
  rw [(tone_length_and_amplitude 600 (3/10) (3/10) (by norm_num)).1]
  have hf : ⌊(SAMPLE_RATE : ℚ) * (3/10)⌋ = 14400 := by norm_num [SAMPLE_RATE]
  rw [hf]
  rfl

/-- C4 counterexample: for `f = 12000` Hz and `duration = 1/32000` s (one
sample), the degenerate sweep's only sample is
`0.3 * sin(2π * 12000/48000) = 0.3 * sin(π/2) = 0.3`, while the tone's only
sample is `0.3 * sin(0) = 0` — the cumulative-sum phase of the sweep starts
one sample step ahead, so the two waveforms are not numerically equal. -/
theorem sweep_degenerate_counterexample :
    generate_sweep 12000 12000 (1/32000) (3/10) ≠ generate_tone 12000 (1/32000) (3/10) := by
  have hn : numSamples (1/32000) = 1 := by
    unfold numSamples
    norm_num [SAMPLE_RATE]
  have hs : generate_sweep 12000 12000 (1/32000) (3/10) = [(3/10 : ℝ)] := by
    unfold generate_sweep
    rw [hn]
    have hp : sweepPhase 12000 12000 1 0 = 1/4 := by
      unfold sweepPhase sweepFreq
      rw [Finset.sum_range_one]
      norm_num [SAMPLE_RATE]
    simp only [List.range_succ, List.range_zero, List.nil_append, List.map_cons,
      List.map_nil, hp]
    have hc : ((1/4 : ℚ) : ℝ) = 1/4 := by norm_num
    rw [hc, (by ring : (2 * Real.pi * (1/4 : ℝ)) = Real.pi / 2), Real.sin_pi_div_two, mul_one]
    norm_num
  have ht : generate_tone 12000 (1/32000) (3/10) = [(0 : ℝ)] := by
    unfold generate_tone
    rw [hn]
    have htt : toneT (1/32000) 1 0 = 0 := by
      unfold toneT
      norm_num
    simp only [List.range_succ, List.range_zero, List.nil_append, List.map_cons,
      List.map_nil, htt]
    norm_num [Real.sin_zero]
  rw [hs, ht]
  intro h
  have h1 : (3/10 : ℝ) = 0 := by
    simpa using h
  norm_num at h1

/-- C4 (amended): a degenerate sweep `sweep(f, f, d, v)` has the same length
as `tone(f, d, v)` but is the constant-frequency sine whose sample `i` has
phase `2π f (i+1) / 48000`: the cumulative sum over the constant frequency
array contributes `i + 1` terms, so the phase is advanced by one sample step
relative to the tone (whose sample 0 has phase 0), and the two waveforms are
not samplewise equal in general. -/
theorem sweep_degenerate_constant_freq (f d v : ℚ) :
    (generate_sweep f f d v).length = (generate_tone f d v).length ∧
    generate_sweep f f d v =
      (List.range (numSamples d)).map
        (fun (i : ℕ) => (v : ℝ) *
          Real.sin (2 * Real.pi * (((((i : ℕ) : ℚ) + 1) * f / (SAMPLE_RATE : ℚ)) : ℝ))) := by
  constructor
  · simp [generate_sweep, generate_tone]
  · unfold generate_sweep
    apply List.map_congr_left
    intro i _
    have hph : sweepPhase f f (numSamples d) i = ((i : ℚ) + 1) * f / (SAMPLE_RATE : ℚ) := by
      unfold sweepPhase
      have hconst : ∀ j ∈ Finset.range (i + 1), sweepFreq f f (numSamples d) j = f := by
        intro j _
        unfold sweepFreq
        split
        · rfl
        · simp
      rw [Finset.sum_congr rfl hconst, Finset.sum_const, Finset.card_range, nsmul_eq_mul]
      push_cast
      ring
    rw [hph]
    push_cast
    ring_nf
